import Mathlib

/-!
# Verification of the `ucitap2json` transcript parser

This file gives a shallow embedding of `src/ucitap2json.rs`, the UCI-log to
JSON converter, and proves properties of it.  The program reads a transcript
of UCI protocol lines, reconstructs board state from `position` commands,
accumulates `info` search statistics, and emits one record per `bestmove`
line for which a position fingerprint is stored.

The chess rules engine used by the program (the `shakmaty` crate: legal move
generation, FEN parsing and printing, SAN rendering) is an external
collaborator of the repository; it is embedded here concretely (board,
legal-move generator with castling and en passant, FEN, SAN) following the
interface the spec describes ("generate legal moves for a position",
"apply a move to a position", "render a move in standard notation").

Strings are modelled at the level of Unicode characters (`List Char`),
which agrees with Rust byte indexing on the ASCII protocol vocabulary; a
separate byte-level model of `parse_uci_move`'s slicing is given further
below to analyse its behaviour on non-ASCII tokens.
-/

set_option maxRecDepth 10000
set_option maxHeartbeats 4000000

namespace Ucitap

/-! ## String utilities (models of the Rust `str` operations used) -/

/-- Model of Rust `str::split_whitespace`: maximal runs of non-whitespace. -/
def splitWsAux : List Char → List Char → List String
  | [], acc => if acc.isEmpty then [] else [String.mk acc.reverse]
  | c :: cs, acc =>
    if c.isWhitespace then
      (if acc.isEmpty then splitWsAux cs [] else String.mk acc.reverse :: splitWsAux cs [])
    else splitWsAux cs (c :: acc)

def splitWs (s : String) : List String := splitWsAux s.data []

/-- Model of Rust `str::starts_with`. -/
def strStarts (p s : String) : Bool := p.data.isPrefixOf s.data

/-- Model of Rust `str::strip_prefix`: the remainder after `p`, when `s` starts with `p`. -/
def stripStart (p s : String) : Option String :=
  if p.data.isPrefixOf s.data then some (String.mk (s.data.drop p.data.length)) else none

/-- Does `s` contain `pat` as a contiguous substring (model of `Regex::new(pat).is_match`
for a pattern with no metacharacters)? -/
def hasSubAux (n : List Char) : List Char → Bool
  | [] => n.isEmpty
  | c :: cs => n.isPrefixOf (c :: cs) || hasSubAux n cs

def containsStr (s pat : String) : Bool := hasSubAux pat.data s.data

/-- Model of Rust `str::trim`. -/
def trimStr (s : String) : String :=
  String.mk (((s.data.dropWhile Char.isWhitespace).reverse.dropWhile Char.isWhitespace).reverse)

/-- Model of `Vec::join(" ")`. -/
def joinSp : List String → String
  | [] => ""
  | [x] => x
  | x :: y :: xs => x ++ " " ++ joinSp (y :: xs)

/-- Join with an arbitrary separator (used for FEN rank lists, `Vec::join("/")`). -/
def joinWith (sep : String) : List String → String
  | [] => ""
  | [x] => x
  | x :: y :: xs => x ++ sep ++ joinWith sep (y :: xs)

/-- First index at which `pat` occurs as a substring of `s` (model of `str::find`). -/
def findSubIdxAux (pat : List Char) : List Char → Nat → Option Nat
  | [], i => if pat = [] then some i else none
  | c :: rest, i =>
    if pat.isPrefixOf (c :: rest) then some i else findSubIdxAux pat rest (i + 1)

def findSubIdx (s pat : String) : Option Nat := findSubIdxAux pat.data s.data 0

def takeStr (s : String) (n : Nat) : String := String.mk (s.data.take n)

def dropStr (s : String) (n : Nat) : String := String.mk (s.data.drop n)

/-- Digit-string to number; `none` unless the list is a nonempty run of decimal digits. -/
def parseDigits (l : List Char) : Option Nat :=
  if l ≠ [] ∧ l.all Char.isDigit then
    some (l.foldl (fun acc c => acc * 10 + (c.toNat - 48)) 0)
  else none

/-- Model of Rust unsigned integer `FromStr` for a type with `bound` values
(an optional leading `+`, then digits; overflow is a parse error). -/
def rustParseU (bound : Nat) (s : String) : Option Nat :=
  let l := match s.data with
    | '+' :: r => r
    | r => r
  match parseDigits l with
  | some v => if v < bound then some v else none
  | none => none

/-- Model of Rust signed integer `FromStr` for a type holding `-bound ..= bound - 1`. -/
def rustParseI (bound : Nat) (s : String) : Option Int :=
  match s.data with
  | '-' :: r =>
    match parseDigits r with
    | some v => if v ≤ bound then some (-(v : Int)) else none
    | none => none
  | '+' :: r =>
    match parseDigits r with
    | some v => if v < bound then some (v : Int) else none
    | none => none
  | r =>
    match parseDigits r with
    | some v => if v < bound then some (v : Int) else none
    | none => none

/-! ## Chess data model (embedding of the `shakmaty` capability the program consumes) -/

inductive Color
  | white
  | black
deriving DecidableEq, Repr

def Color.other : Color → Color
  | .white => .black
  | .black => .white

inductive Role
  | pawn
  | knight
  | bishop
  | rook
  | queen
  | king
deriving DecidableEq, Repr

structure Piece where
  color : Color
  role : Role
deriving DecidableEq, Repr

/-- Board: square 0 is a1, square 63 is h8; file = sq % 8, rank = sq / 8. -/
abbrev ChessBoard := List (Option Piece)

def boardGet (b : ChessBoard) (sq : Nat) : Option Piece := b.getD sq none

def boardSet (b : ChessBoard) (sq : Nat) (v : Option Piece) : ChessBoard := b.set sq v

structure CastlingRights where
  wk : Bool
  wq : Bool
  bk : Bool
  bq : Bool
deriving DecidableEq, Repr

structure GamePos where
  board : ChessBoard
  turn : Color
  castling : CastlingRights
  ep : Option Nat
  halfmoves : Nat
  fullmoves : Nat
deriving DecidableEq, Repr

def backRank (c : Color) : List (Option Piece) :=
  [Role.rook, .knight, .bishop, .queen, .king, .bishop, .knight, .rook].map
    (fun r => some ⟨c, r⟩)

def pawnRank (c : Color) : List (Option Piece) := List.replicate 8 (some ⟨c, .pawn⟩)

def emptyRank : List (Option Piece) := List.replicate 8 none

def startBoard : ChessBoard :=
  backRank .white ++ pawnRank .white ++ emptyRank ++ emptyRank ++ emptyRank ++ emptyRank ++
    pawnRank .black ++ backRank .black

/-- The standard starting position (model of `Chess::default()`). -/
def startingGamePos : GamePos :=
  { board := startBoard
    turn := .white
    castling := ⟨true, true, true, true⟩
    ep := none
    halfmoves := 0
    fullmoves := 1 }

/-! ### Geometry -/

def fileOf (sq : Nat) : Nat := sq % 8

def rankOf (sq : Nat) : Nat := sq / 8

/-- Shift a square by a (file, rank) delta, `none` when leaving the board. -/
def shiftSq (sq : Nat) (d : Int × Int) : Option Nat :=
  let f : Int := Int.ofNat (fileOf sq) + d.1
  let r : Int := Int.ofNat (rankOf sq) + d.2
  if 0 ≤ f ∧ f < 8 ∧ 0 ≤ r ∧ r < 8 then some (f.toNat + 8 * r.toNat) else none

def knightOffs : List (Int × Int) :=
  [(1, 2), (2, 1), (2, -1), (1, -2), (-1, -2), (-2, -1), (-2, 1), (-1, 2)]

def kingOffs : List (Int × Int) :=
  [(1, 0), (1, 1), (0, 1), (-1, 1), (-1, 0), (-1, -1), (0, -1), (1, -1)]

def rookDirs : List (Int × Int) := [(1, 0), (-1, 0), (0, 1), (0, -1)]

def bishopDirs : List (Int × Int) := [(1, 1), (1, -1), (-1, 1), (-1, -1)]

def queenDirs : List (Int × Int) := rookDirs ++ bishopDirs

/-- Squares along direction `d` from `sq`, unobstructed, up to `fuel` steps. -/
def rayFrom (sq : Nat) (d : Int × Int) : Nat → List Nat
  | 0 => []
  | fuel + 1 =>
    match shiftSq sq d with
    | none => []
    | some t => t :: rayFrom t d fuel

def fullRay (sq : Nat) (d : Int × Int) : List Nat := rayFrom sq d 7

/-- Keep the ray squares reachable by a slider of color `c`: empty squares,
then a first enemy-occupied square (inclusive); stop at a friendly piece. -/
def rayKeep (b : ChessBoard) (c : Color) : List Nat → List Nat
  | [] => []
  | t :: rest =>
    match boardGet b t with
    | none => t :: rayKeep b c rest
    | some pc => if pc.color = c then [] else [t]

/-! ### Moves -/

/-- Mirror of `shakmaty::Move` (the constructors the program can encounter). -/
inductive ChessMove
  | normal (role : Role) (src dst : Nat) (capture : Option Role) (promo : Option Role)
  | enPassant (src dst : Nat)
  | castle (kingSq rookSq : Nat)
deriving DecidableEq, Repr

/-- Mirror of `shakmaty::Move::from()` (always `Some` for the constructors above). -/
def ChessMove.srcSq : ChessMove → Option Nat
  | .normal _ src _ _ _ => some src
  | .enPassant src _ => some src
  | .castle kingSq _ => some kingSq

/-- Mirror of `shakmaty::Move::to()`; for castling this is the rook's square. -/
def ChessMove.dstSq : ChessMove → Nat
  | .normal _ _ dst _ _ => dst
  | .enPassant _ dst => dst
  | .castle _ rookSq => rookSq

/-- Mirror of `shakmaty::Move::promotion()`. -/
def ChessMove.promoOf : ChessMove → Option Role
  | .normal _ _ _ _ promo => promo
  | .enPassant _ _ => none
  | .castle _ _ => none

/-- Mirror of `shakmaty::Move::role()`. -/
def ChessMove.roleOf : ChessMove → Role
  | .normal role _ _ _ _ => role
  | .enPassant _ _ => .pawn
  | .castle _ _ => .king

/-- Mirror of `shakmaty::Move::capture()`. -/
def ChessMove.captureOf : ChessMove → Option Role
  | .normal _ _ _ cap _ => cap
  | .enPassant _ _ => some .pawn
  | .castle _ _ => none

/-! ### Move generation -/

def stepTargets (sq : Nat) (offs : List (Int × Int)) : List Nat := offs.filterMap (shiftSq sq)

/-- A step target is playable unless occupied by a friendly piece. -/
def stepOk (b : ChessBoard) (c : Color) (t : Nat) : Bool :=
  match boardGet b t with
  | none => true
  | some pc => decide (pc.color ≠ c)

def mkStep (b : ChessBoard) (role : Role) (sq t : Nat) : ChessMove :=
  .normal role sq t ((boardGet b t).map Piece.role) none

def stepMoves (b : ChessBoard) (c : Color) (role : Role) (sq : Nat)
    (offs : List (Int × Int)) : List ChessMove :=
  ((stepTargets sq offs).filter (stepOk b c)).map (mkStep b role sq)

def slideMoves (b : ChessBoard) (c : Color) (role : Role) (sq : Nat)
    (dirs : List (Int × Int)) : List ChessMove :=
  (dirs.flatMap (fun d => rayKeep b c (fullRay sq d))).map (mkStep b role sq)

def pawnDirY : Color → Int
  | .white => 1
  | .black => -1

def promoRankOf : Color → Nat
  | .white => 7
  | .black => 0

def startRankOf : Color → Nat
  | .white => 1
  | .black => 6

/-- Pawn move(s) to target `t`: the four promotion choices on the last rank,
otherwise a single move. -/
def promoExpand (sq t : Nat) (c : Color) (cap : Option Role) : List ChessMove :=
  if rankOf t = promoRankOf c then
    [.normal .pawn sq t cap (some .queen), .normal .pawn sq t cap (some .rook),
     .normal .pawn sq t cap (some .bishop), .normal .pawn sq t cap (some .knight)]
  else [.normal .pawn sq t cap none]

def pawnPushes (b : ChessBoard) (c : Color) (sq : Nat) : List ChessMove :=
  match shiftSq sq (0, pawnDirY c) with
  | none => []
  | some u1 =>
    if boardGet b u1 = none then
      promoExpand sq u1 c none ++
        (if rankOf sq = startRankOf c then
          match shiftSq sq (0, 2 * pawnDirY c) with
          | some u2 => if boardGet b u2 = none then [.normal .pawn sq u2 none none] else []
          | none => []
        else [])
    else []

def pawnCapDir (b : ChessBoard) (c : Color) (sq : Nat) (dx : Int) : List ChessMove :=
  match shiftSq sq (dx, pawnDirY c) with
  | none => []
  | some t =>
    match boardGet b t with
    | some pc => if pc.color = c then [] else promoExpand sq t c (some pc.role)
    | none => []

/-- En-passant capture in direction `dx`.  The target must be the stored
en-passant square and empty (always the case for positions arising from play,
where the en-passant square is the square a pawn just skipped). -/
def pawnEpDir (p : GamePos) (sq : Nat) (dx : Int) : List ChessMove :=
  match shiftSq sq (dx, pawnDirY p.turn) with
  | some t =>
    if p.ep = some t ∧ boardGet p.board t = none then [.enPassant sq t] else []
  | none => []

def pawnMoves (p : GamePos) (sq : Nat) : List ChessMove :=
  pawnPushes p.board p.turn sq ++ pawnCapDir p.board p.turn sq (-1) ++
    pawnCapDir p.board p.turn sq 1 ++ pawnEpDir p sq (-1) ++ pawnEpDir p sq 1

/-- First occupied square (with its piece) along direction `d` from `sq`. -/
def firstPiece (b : ChessBoard) (sq : Nat) (d : Int × Int) : Option (Nat × Piece) :=
  (fullRay sq d).findSome? (fun t => (boardGet b t).map (fun pc => (t, pc)))

/-- Is `sq` attacked by a piece of color `c`? -/
def attacked (b : ChessBoard) (c : Color) (sq : Nat) : Bool :=
  ((stepTargets sq knightOffs).any fun t => boardGet b t == some ⟨c, .knight⟩) ||
  ((stepTargets sq kingOffs).any fun t => boardGet b t == some ⟨c, .king⟩) ||
  ((stepTargets sq [(-1, -(pawnDirY c)), (1, -(pawnDirY c))]).any
    fun t => boardGet b t == some ⟨c, .pawn⟩) ||
  (rookDirs.any fun d =>
    match firstPiece b sq d with
    | some (_, pc) => pc.color == c && (pc.role == .rook || pc.role == .queen)
    | none => false) ||
  (bishopDirs.any fun d =>
    match firstPiece b sq d with
    | some (_, pc) => pc.color == c && (pc.role == .bishop || pc.role == .queen)
    | none => false)

/-- Castling moves available from square `sq` (standard chess: king on its
home square, rook on the corner, path empty, king path not attacked). -/
def castleMoves (p : GamePos) (sq : Nat) : List ChessMove :=
  match p.turn with
  | .white =>
    if sq = 4 then
      (if p.castling.wk ∧ boardGet p.board 5 = none ∧ boardGet p.board 6 = none ∧
          boardGet p.board 7 = some ⟨.white, .rook⟩ ∧
          attacked p.board .black 4 = false ∧ attacked p.board .black 5 = false ∧
          attacked p.board .black 6 = false then
        [ChessMove.castle 4 7]
      else []) ++
      (if p.castling.wq ∧ boardGet p.board 3 = none ∧ boardGet p.board 2 = none ∧
          boardGet p.board 1 = none ∧ boardGet p.board 0 = some ⟨.white, .rook⟩ ∧
          attacked p.board .black 4 = false ∧ attacked p.board .black 3 = false ∧
          attacked p.board .black 2 = false then
        [ChessMove.castle 4 0]
      else [])
    else []
  | .black =>
    if sq = 60 then
      (if p.castling.bk ∧ boardGet p.board 61 = none ∧ boardGet p.board 62 = none ∧
          boardGet p.board 63 = some ⟨.black, .rook⟩ ∧
          attacked p.board .white 60 = false ∧ attacked p.board .white 61 = false ∧
          attacked p.board .white 62 = false then
        [ChessMove.castle 60 63]
      else []) ++
      (if p.castling.bq ∧ boardGet p.board 59 = none ∧ boardGet p.board 58 = none ∧
          boardGet p.board 57 = none ∧ boardGet p.board 56 = some ⟨.black, .rook⟩ ∧
          attacked p.board .white 60 = false ∧ attacked p.board .white 59 = false ∧
          attacked p.board .white 58 = false then
        [ChessMove.castle 60 56]
      else [])
    else []

def movesFrom (p : GamePos) (sq : Nat) (pc : Piece) : List ChessMove :=
  match pc.role with
  | .pawn => pawnMoves p sq
  | .knight => stepMoves p.board p.turn .knight sq knightOffs
  | .bishop => slideMoves p.board p.turn .bishop sq bishopDirs
  | .rook => slideMoves p.board p.turn .rook sq rookDirs
  | .queen => slideMoves p.board p.turn .queen sq queenDirs
  | .king => stepMoves p.board p.turn .king sq kingOffs ++ castleMoves p sq

def pseudoMoves (p : GamePos) : List ChessMove :=
  (List.range 64).flatMap fun sq =>
    match boardGet p.board sq with
    | some pc => if pc.color = p.turn then movesFrom p sq pc else []
    | none => []

/-! ### Applying moves -/

/-- Discard castling rights attached to corner square `sq`
(mirror of `shakmaty`'s `discard_rook`). -/
def clearRightsAt (cr : CastlingRights) (sq : Nat) : CastlingRights :=
  { wk := cr.wk && sq != 7
    wq := cr.wq && sq != 0
    bk := cr.bk && sq != 63
    bq := cr.bq && sq != 56 }

def clearSide (cr : CastlingRights) : Color → CastlingRights
  | .white => { cr with wk := false, wq := false }
  | .black => { cr with bk := false, bq := false }

/-- Apply a move (mirror of `shakmaty`'s `play_unchecked`). -/
def playMove (p : GamePos) (m : ChessMove) : GamePos :=
  match m with
  | .normal role src dst cap promo =>
    let moved : Piece := ⟨p.turn, promo.getD role⟩
    let b := boardSet (boardSet p.board src none) dst (some moved)
    let cr0 := if role = .king then clearSide p.castling p.turn else clearRightsAt p.castling src
    let cr := clearRightsAt cr0 dst
    let epNew :=
      if role = .pawn ∧ shiftSq src (0, 2 * pawnDirY p.turn) = some dst then
        shiftSq src (0, pawnDirY p.turn)
      else none
    { board := b
      turn := p.turn.other
      castling := cr
      ep := epNew
      halfmoves := if role = .pawn ∨ cap.isSome then 0 else p.halfmoves + 1
      fullmoves := if p.turn = .black then p.fullmoves + 1 else p.fullmoves }
  | .enPassant src dst =>
    let capSq := fileOf dst + 8 * rankOf src
    let b := boardSet (boardSet (boardSet p.board src none) capSq none) dst
      (some ⟨p.turn, .pawn⟩)
    { board := b
      turn := p.turn.other
      castling := p.castling
      ep := none
      halfmoves := 0
      fullmoves := if p.turn = .black then p.fullmoves + 1 else p.fullmoves }
  | .castle kingSq rookSq =>
    let kingside := rookSq > kingSq
    let kDst := if kingside then kingSq + 2 else kingSq - 2
    let rDst := if kingside then kDst - 1 else kDst + 1
    let b := boardSet (boardSet (boardSet (boardSet p.board kingSq none) rookSq none)
      kDst (some ⟨p.turn, .king⟩)) rDst (some ⟨p.turn, .rook⟩)
    { board := b
      turn := p.turn.other
      castling := clearSide p.castling p.turn
      ep := none
      halfmoves := p.halfmoves + 1
      fullmoves := if p.turn = .black then p.fullmoves + 1 else p.fullmoves }

def kingSquare (b : ChessBoard) (c : Color) : Option Nat :=
  (List.range 64).find? fun sq => boardGet b sq == some ⟨c, .king⟩

/-- A pseudo-legal move is legal when the mover's king is not left attacked. -/
def legalAfter (p : GamePos) (m : ChessMove) : Bool :=
  let p2 := playMove p m
  match kingSquare p2.board p.turn with
  | some k => !(attacked p2.board p.turn.other k)
  | none => true

/-- Model of `shakmaty`'s `Position::legal_moves`. -/
def legalMoves (p : GamePos) : List ChessMove := (pseudoMoves p).filter (legalAfter p)

/-! ### FEN printing (model of `Fen::from_position(..).to_string()`) -/

def pieceChar (pc : Piece) : Char :=
  match pc.color, pc.role with
  | .white, .pawn => 'P'
  | .white, .knight => 'N'
  | .white, .bishop => 'B'
  | .white, .rook => 'R'
  | .white, .queen => 'Q'
  | .white, .king => 'K'
  | .black, .pawn => 'p'
  | .black, .knight => 'n'
  | .black, .bishop => 'b'
  | .black, .rook => 'r'
  | .black, .queen => 'q'
  | .black, .king => 'k'

def emitRun (n : Nat) : List Char := if n = 0 then [] else [Char.ofNat (48 + n)]

def rankChars (b : ChessBoard) (r : Nat) : List Char :=
  let res := (List.range 8).foldl
    (fun (acc : List Char × Nat) f =>
      match boardGet b (f + 8 * r) with
      | none => (acc.1, acc.2 + 1)
      | some pc => (acc.1 ++ emitRun acc.2 ++ [pieceChar pc], 0))
    ([], 0)
  res.1 ++ emitRun res.2

def boardFen (b : ChessBoard) : String :=
  joinWith "/" (((List.range 8).reverse).map (fun r => String.mk (rankChars b r)))

def castlingFen (cr : CastlingRights) : String :=
  let s := (if cr.wk then "K" else "") ++ (if cr.wq then "Q" else "") ++
    (if cr.bk then "k" else "") ++ (if cr.bq then "q" else "")
  if s = "" then "-" else s

def fileChar (sq : Nat) : Char := Char.ofNat (97 + fileOf sq)

def rankChar (sq : Nat) : Char := Char.ofNat (49 + rankOf sq)

def squareName (sq : Nat) : String := String.mk [fileChar sq, rankChar sq]

/-- The en-passant field under `EnPassantMode::Legal`: the stored square is
printed only when a legal en-passant capture to it exists. -/
def epLegalSq (p : GamePos) : Option Nat :=
  match p.ep with
  | some t =>
    if (legalMoves p).any (fun m =>
        match m with
        | .enPassant _ _ => true
        | _ => false) then
      some t
    else none
  | none => none

def fenOf (p : GamePos) : String :=
  boardFen p.board ++ " " ++ (if p.turn = .white then "w" else "b") ++ " " ++
    castlingFen p.castling ++ " " ++
    (match epLegalSq p with
      | some t => squareName t
      | none => "-") ++ " " ++
    toString p.halfmoves ++ " " ++ toString p.fullmoves

/-! ### FEN parsing (model of `str::parse::<Fen>()` and `into_position`) -/

def charPiece (c : Char) : Option Piece :=
  match c with
  | 'P' => some ⟨.white, .pawn⟩
  | 'N' => some ⟨.white, .knight⟩
  | 'B' => some ⟨.white, .bishop⟩
  | 'R' => some ⟨.white, .rook⟩
  | 'Q' => some ⟨.white, .queen⟩
  | 'K' => some ⟨.white, .king⟩
  | 'p' => some ⟨.black, .pawn⟩
  | 'n' => some ⟨.black, .knight⟩
  | 'b' => some ⟨.black, .bishop⟩
  | 'r' => some ⟨.black, .rook⟩
  | 'q' => some ⟨.black, .queen⟩
  | 'k' => some ⟨.black, .king⟩
  | _ => none

def parseRankChars : List Char → Option (List (Option Piece))
  | [] => some []
  | c :: rest =>
    if '1' ≤ c ∧ c ≤ '8' then
      (parseRankChars rest).map (fun l => List.replicate (c.toNat - 48) none ++ l)
    else
      match charPiece c with
      | some pc => (parseRankChars rest).map (fun l => some pc :: l)
      | none => none

def splitOnChar (sep : Char) : List Char → List (List Char)
  | [] => [[]]
  | c :: rest =>
    let r := splitOnChar sep rest
    if c = sep then [] :: r
    else
      match r with
      | [] => [[c]]
      | h :: t => (c :: h) :: t

def parseBoardFen (s : String) : Option ChessBoard :=
  let ranks := splitOnChar '/' s.data
  if ranks.length = 8 then
    let parsed := ranks.map parseRankChars
    if parsed.all (fun r => r.isSome ∧ (r.getD []).length = 8) then
      some ((parsed.reverse.map (fun r => r.getD [])).flatten)
    else none
  else none

def parseTurnStr : String → Option Color
  | "w" => some .white
  | "b" => some .black
  | _ => none

def parseCastlingFen (s : String) : Option CastlingRights :=
  if s = "-" then some ⟨false, false, false, false⟩
  else if s ≠ "" ∧ s.data.all (fun c => c = 'K' ∨ c = 'Q' ∨ c = 'k' ∨ c = 'q') then
    some ⟨s.data.contains 'K', s.data.contains 'Q', s.data.contains 'k', s.data.contains 'q'⟩
  else none

def parseSquareName (c1 c2 : Char) : Option Nat :=
  if 'a' ≤ c1 ∧ c1 ≤ 'h' ∧ '1' ≤ c2 ∧ c2 ≤ '8' then
    some ((c1.toNat - 97) + 8 * (c2.toNat - 49))
  else none

def parseEpField (s : String) : Option (Option Nat) :=
  if s = "-" then some none
  else
    match s.data with
    | [c1, c2] => (parseSquareName c1 c2).map some
    | _ => none

/-- Position-level validation (model of `Fen::into_position(CastlingMode::Standard)`):
kings present and unique, no pawns on the back ranks, the side not to move
not in check, en-passant square empty. -/
def validPos (p : GamePos) : Bool :=
  ((List.range 64).filter (fun sq => boardGet p.board sq == some ⟨.white, .king⟩)).length == 1 &&
  ((List.range 64).filter (fun sq => boardGet p.board sq == some ⟨.black, .king⟩)).length == 1 &&
  ((List.range 64).all fun sq =>
    match boardGet p.board sq with
    | some ⟨_, .pawn⟩ => decide (rankOf sq ≠ 0 ∧ rankOf sq ≠ 7)
    | _ => true) &&
  (match kingSquare p.board p.turn.other with
    | some k => !(attacked p.board p.turn k)
    | none => false) &&
  (match p.ep with
    | some t => boardGet p.board t == none
    | none => true)

/-- Model of `fen_str.parse::<Fen>()` followed by
`into_position(CastlingMode::Standard)`: `none` is any parse or validation error. -/
def parseFenPos (s : String) : Option GamePos :=
  let fields := splitWs s
  let core : Option (GamePos) :=
    match fields with
    | [b, t, c, e] =>
      match parseBoardFen b, parseTurnStr t, parseCastlingFen c, parseEpField e with
      | some bd, some tn, some cr, some ep => some ⟨bd, tn, cr, ep, 0, 1⟩
      | _, _, _, _ => none
    | [b, t, c, e, h, f] =>
      match parseBoardFen b, parseTurnStr t, parseCastlingFen c, parseEpField e,
          parseDigits h.data, parseDigits f.data with
      | some bd, some tn, some cr, some ep, some hm, some fm => some ⟨bd, tn, cr, ep, hm, fm⟩
      | _, _, _, _, _, _ => none
    | _ => none
  match core with
  | some p => if validPos p then some p else none
  | none => none

/-! ### SAN rendering (model of `San::from_move(..).to_string()`) -/

def roleChar : Role → Char
  | .pawn => 'P'
  | .knight => 'N'
  | .bishop => 'B'
  | .rook => 'R'
  | .queen => 'Q'
  | .king => 'K'

/-- Standard algebraic notation of a legal move on `p` (no check suffix,
matching `shakmaty::san::San` as opposed to `SanPlus`). -/
def sanOf (p : GamePos) (m : ChessMove) : String :=
  match m with
  | .castle k r => if r > k then "O-O" else "O-O-O"
  | .enPassant src dst => String.mk [fileChar src, 'x'] ++ squareName dst
  | .normal role src dst cap promo =>
    if role = .pawn then
      (if cap.isSome then String.mk [fileChar src, 'x'] else "") ++ squareName dst ++
        (match promo with
          | some pr => String.mk ['=', roleChar pr]
          | none => "")
    else
      let others := (legalMoves p).filter fun c2 =>
        c2.roleOf == role && c2.dstSq == dst && c2.srcSq != some src
      let sameFile := others.any fun c2 => fileOf (c2.srcSq.getD 64) == fileOf src
      let sameRank := others.any fun c2 => rankOf (c2.srcSq.getD 64) == rankOf src
      let disamb :=
        if others.isEmpty then ""
        else if sameFile && sameRank then squareName src
        else if sameFile then String.mk [rankChar src]
        else String.mk [fileChar src]
      String.mk [roleChar role] ++ disamb ++ (if cap.isSome then "x" else "") ++
        squareName dst

/-! ## The functions of `ucitap2json.rs` -/

/-- `trim_fen`: keep the first four whitespace-separated fields when at least
four are present, otherwise the input unchanged. -/
def trim_fen (fen : String) : String :=
  let parts := splitWs fen
  if parts.length ≥ 4 then joinSp (parts.take 4) else fen

/-- The promotion letter table of `parse_uci_move` (5th character; any other
letter yields no promotion request). -/
def promoRole (c : Char) : Option Role :=
  match c with
  | 'q' => some .queen
  | 'r' => some .rook
  | 'b' => some .bishop
  | 'n' => some .knight
  | _ => none

/-- The (from, to, promotion) fields `parse_uci_move` extracts from a token:
characters 0-1 and 2-3 parsed as squares, and the promotion request when the
token has exactly 5 characters. -/
def uciFields (uci : String) : Option (Nat × Nat × Option Role) :=
  let cs := uci.data
  if cs.length < 4 then none
  else
    match parseSquareName (cs.getD 0 ' ') (cs.getD 1 ' '),
        parseSquareName (cs.getD 2 ' ') (cs.getD 3 ' ') with
    | some f, some t =>
      some (f, t, if cs.length = 5 then promoRole (cs.getD 4 ' ') else none)
    | _, _ => none

/-- The loop condition of `parse_uci_move`: origin, destination and promotion
all agree with the token's fields (a move with no promotion matches exactly a
token with no promotion request). -/
def uciMatches (fl : Nat × Nat × Option Role) (m : ChessMove) : Bool :=
  m.srcSq == some fl.1 && m.dstSq == fl.2.1 && m.promoOf == fl.2.2

/-- `parse_uci_move`: the first legal move matching the token's fields. -/
def parse_uci_move (uci : String) (p : GamePos) : Option ChessMove :=
  match uciFields uci with
  | none => none
  | some fl => (legalMoves p).find? (uciMatches fl)

/-- The loop body of `convert_pv_to_san`: SAN strings of the resolved tokens,
each rendered against the board before the move is applied; the first
unresolvable token stops the walk. -/
def sanList (p : GamePos) : List String → List String
  | [] => []
  | tok :: rest =>
    match parse_uci_move tok p with
    | some m => sanOf p m :: sanList (playMove p m) rest
    | none => []

/-- `convert_pv_to_san`. -/
def convert_pv_to_san (pv : String) (p : GamePos) : String := joinSp (sanList p (splitWs pv))

/-- The loop of `apply_moves` over the already-split tokens: a token that
fails to resolve is skipped and iteration continues with the next token. -/
def applyTok (p : GamePos) : List String → GamePos
  | [] => p
  | tok :: rest =>
    match parse_uci_move tok p with
    | some m => applyTok (playMove p m) rest
    | none => applyTok p rest

/-- `apply_moves`. -/
def apply_moves (p : GamePos) (movesStr : String) : GamePos := applyTok p (splitWs movesStr)

/-! ## The driver (`main`'s per-line state machine) -/

/-- Mirror of the serialized `Payload` struct. -/
structure Payload where
  engine : String
  fen : String
  ply : Option Nat
  score : Option Int
  mate : Option Int
  nodes : Option Nat
  nps : Option Nat
  time : Option Nat
  pv : Option String
deriving DecidableEq, Repr

/-- The mutable state of `main`'s loop. -/
structure TapState where
  board : GamePos
  engine : String
  fen : Option String
  ply : Option Nat
  score : Option Int
  mate : Option Int
  nodes : Option Nat
  nps : Option Nat
  time : Option Nat
  pv : Option String
  results : List Payload
deriving DecidableEq, Repr

def initState : TapState :=
  { board := startingGamePos
    engine := ""
    fen := none
    ply := none
    score := none
    mate := none
    nodes := none
    nps := none
    time := none
    pv := none
    results := [] }

/-- One iteration of the `info` key/value scan at token `x` with following
token `next` (`parts.get(i + 1)`). -/
def infoStep (x : String) (next : Option String) (s : TapState) : TapState :=
  if x = "depth" then { s with ply := next.bind (rustParseU (2 ^ 32)) }
  else if x = "cp" then { s with score := next.bind (rustParseI (2 ^ 31)) }
  else if x = "mate" then { s with mate := next.bind (rustParseI (2 ^ 31)) }
  else if x = "nodes" then { s with nodes := next.bind (rustParseU (2 ^ 64)) }
  else if x = "nps" then { s with nps := next.bind (rustParseU (2 ^ 64)) }
  else if x = "time" then { s with time := next.bind (rustParseU (2 ^ 64)) }
  else s

/-- The `while i < parts.len()` scan of an `info` line. -/
def infoScan : List String → TapState → TapState
  | [], s => s
  | x :: rest, s => infoScan rest (infoStep x rest.head? s)

/-- Model of the capture of `Regex::new(r"(^| )pv (.*)$")`: the text after the
leftmost occurrence of `"pv "` that is at the start of the line or preceded by
a space; `main` then trims it. -/
def pvFind : List Char → Bool → Option (List Char)
  | [], _ => none
  | c :: rest, ok =>
    if ok && "pv ".data.isPrefixOf (c :: rest) then some ((c :: rest).drop 3)
    else pvFind rest (c == ' ')

def pvOfLine (line : String) : Option String :=
  (pvFind line.data true).map (fun rest => trimStr (String.mk rest))

/-- The body of `main`'s `for line in reader.lines()` loop. -/
def procLine (s : TapState) (line : String) : TapState :=
  if line = "uci" ∨ line = "ucinewgame" then
    { s with board := startingGamePos, fen := none, ply := none, score := none,
             mate := none, nodes := none, nps := none, time := none, pv := none }
  else
    match stripStart "id name " line with
    | some rest => { s with engine := rest }
    | none =>
      match stripStart "position " line with
      | some rest =>
        if strStarts "startpos" rest then
          let b1 :=
            match stripStart "startpos moves " rest with
            | some mv => apply_moves startingGamePos mv
            | none => startingGamePos
          { s with board := b1, fen := some (trim_fen (fenOf b1)) }
        else
          match stripStart "fen " rest with
          | some fenPart =>
            let b2 :=
              match findSubIdx fenPart " moves " with
              | some idx =>
                let fenStr := takeStr fenPart idx
                let movesStr := dropStr fenPart (idx + 7)
                match parseFenPos fenStr with
                | some pos => apply_moves pos movesStr
                | none => s.board
              | none =>
                match parseFenPos fenPart with
                | some pos => pos
                | none => s.board
            { s with board := b2, fen := some (trim_fen (fenOf b2)) }
          | none => s
      | none =>
        if containsStr line "info " then
          let s2 := infoScan (splitWs line) s
          match pvOfLine line with
          | some uciPv => { s2 with pv := some (convert_pv_to_san uciPv s.board) }
          | none => s2
        else if strStarts "bestmove" line then
          let s3 :=
            match s.fen with
            | some fv =>
              { s with results := s.results ++
                  [Payload.mk s.engine fv s.ply s.score s.mate s.nodes s.nps s.time s.pv] }
            | none => s
          { s3 with ply := none, score := none, mate := none, nodes := none,
                    nps := none, time := none, pv := none }
        else s

def procLines (s : TapState) (lines : List String) : TapState := lines.foldl procLine s

/-- The record sequence `main` serializes for a given transcript. -/
def runTap (lines : List String) : List Payload := (procLines initState lines).results

/-! ## Byte-level model of `parse_uci_move`'s slicing

Rust `&str` values are UTF-8 byte sequences; `uci.len()` is the byte length
and `&uci[0..2]`, `&uci[2..4]`, `&uci[4..5]` are byte-range slices that panic
when a boundary falls inside a multi-byte character.  This model represents
the token as its UTF-8 bytes and makes the panic observable: the outer
`Option` is `none` exactly when the function panics. -/

def utf8Bytes1 (c : Char) : List Nat :=
  let n := c.toNat
  if n < 128 then [n]
  else if n < 2048 then [192 + n / 64, 128 + n % 64]
  else if n < 65536 then [224 + n / 4096, 128 + (n / 64) % 64, 128 + n % 64]
  else [240 + n / 262144, 128 + (n / 4096) % 64, 128 + (n / 64) % 64, 128 + n % 64]

def strBytes (s : String) : List Nat := s.data.flatMap utf8Bytes1

def isContByte (b : Nat) : Bool := 128 ≤ b && b < 192

/-- Rust `str::is_char_boundary`. -/
def isBoundaryAt (bs : List Nat) (i : Nat) : Bool :=
  i == 0 || (i == bs.length || (i < bs.length && !isContByte (bs.getD i 0)))

/-- Byte-range slicing `&s[a..b]`; `none` models the panic on an invalid range
or a non-boundary index. -/
def byteSlice (bs : List Nat) (a b : Nat) : Option (List Nat) :=
  if a ≤ b ∧ b ≤ bs.length ∧ isBoundaryAt bs a ∧ isBoundaryAt bs b then
    some ((bs.drop a).take (b - a))
  else none

/-- `Square::from_str` on a two-byte slice (ASCII file letter and rank digit). -/
def parseSquareBytes (bs : List Nat) : Option Nat :=
  match bs with
  | [f, r] =>
    if 97 ≤ f ∧ f ≤ 104 ∧ 49 ≤ r ∧ r ≤ 56 then some ((f - 97) + 8 * (r - 49)) else none
  | _ => none

def promoRoleBytes (bs : List Nat) : Option Role :=
  if bs = [113] then some .queen
  else if bs = [114] then some .rook
  else if bs = [98] then some .bishop
  else if bs = [110] then some .knight
  else none

/-- Byte-faithful `parse_uci_move`: `none` is a panic (a slice at a
non-character-boundary byte offset); `some r` is a normal return of `r`. -/
def parseUciMoveChecked (bs : List Nat) (p : GamePos) : Option (Option ChessMove) :=
  if bs.length < 4 then some none
  else
    match byteSlice bs 0 2 with
    | none => none
    | some s1 =>
      match byteSlice bs 2 4 with
      | none => none
      | some s2 =>
        match parseSquareBytes s1 with
        | none => some none
        | some f =>
          match parseSquareBytes s2 with
          | none => some none
          | some t =>
            if bs.length = 5 then
              match byteSlice bs 4 5 with
              | none => none
              | some s3 =>
                some ((legalMoves p).find? (uciMatches (f, t, promoRoleBytes s3)))
            else
              some ((legalMoves p).find? (uciMatches (f, t, none)))

/-! ## Specification-level definitions used to state the claims -/

/-- The line classes of the driver's dispatch, in the order the Rust code
tests for them. -/
inductive LineKind
  | reset
  | ident
  | posCmd
  | posOther
  | info
  | best
  | other
deriving DecidableEq, Repr

/-- Classification mirror of `procLine`'s branch structure.  `posCmd` is a
`position ` line of one of the two recognized forms (`startpos…` / `fen …`),
which are exactly the lines that store a position fingerprint. -/
def classify (line : String) : LineKind :=
  if line = "uci" ∨ line = "ucinewgame" then .reset
  else if (stripStart "id name " line).isSome then .ident
  else
    match stripStart "position " line with
    | some rest =>
      if strStarts "startpos" rest || (stripStart "fen " rest).isSome then .posCmd
      else .posOther
    | none =>
      if containsStr line "info " then .info
      else if strStarts "bestmove" line then .best
      else .other

/-- Record-count abstraction: fold over the transcript a flag "a recognized
set-position line occurred since the last reset" and the number of records
emitted so far. -/
def countStep (a : Bool × Nat) (line : String) : Bool × Nat :=
  match classify line with
  | .reset => (false, a.2)
  | .posCmd => (true, a.2)
  | .best => (a.1, if a.1 then a.2 + 1 else a.2)
  | _ => a

/-- The number of `bestmove` lines preceded, since the last reset (or the
start), by at least one recognized set-position line. -/
def specRecCount (lines : List String) : Nat := (lines.foldl countStep (false, 0)).2

/-- Last-write-wins reading of the `info` key/value scan: the value attached
to the final occurrence of `key` (the parse of the token after it), or the
previous field value when the key never occurs. -/
def lastKeyVal {α : Type} (key : String) (pr : String → Option α) :
    List String → Option α → Option α
  | [], cur => cur
  | x :: rest, cur =>
    lastKeyVal key pr rest (if x = key then rest.head?.bind pr else cur)

/-- The board after resolving and applying the tokens in order, stopping at
the first unresolvable token. -/
def walkBoard (p : GamePos) : List String → GamePos
  | [] => p
  | tok :: rest =>
    match parse_uci_move tok p with
    | some m => walkBoard (playMove p m) rest
    | none => p

/-- The length of the longest resolvable prefix of the token list. -/
def resolveCount (p : GamePos) : List String → Nat
  | [] => 0
  | tok :: rest =>
    match parse_uci_move tok p with
    | some m => resolveCount (playMove p m) rest + 1
    | none => 0

/-- The SAN rendering of token `i`: the token resolved against the board
reached by the first `i` tokens, rendered before being applied. -/
def sanAt (p : GamePos) (toks : List String) (i : Nat) : Option String :=
  let q := walkBoard p (toks.take i)
  (toks.get? i).bind (fun tok => (parse_uci_move tok q).map (sanOf q))

/-- The fields `parse_uci_move` matches on: origin, destination, promotion. -/
def moveKey (m : ChessMove) : Option Nat × Nat × Option Role :=
  (m.srcSq, m.dstSq, m.promoOf)

/-- The per-origin part of `moveKey`. -/
def key2 (m : ChessMove) : Nat × Option Role := (m.dstSq, m.promoOf)

/-- The legal moves matching a token's extracted fields. -/
def matchingMoves (p : GamePos) (fl : Nat × Nat × Option Role) : List ChessMove :=
  (legalMoves p).filter (uciMatches fl)

/-- Both defined implies distinct (used for board-geometry facts). -/
def optNe (a b : Option Nat) : Bool :=
  match a, b with
  | some x, some y => x != y
  | _, _ => true

/-! # Theorems -/

/-! ## Frame and characterization lemmas for the `info` scan -/

theorem infoStep_ply (x : String) (next : Option String) (s : TapState) :
    (infoStep x next s).ply = if x = "depth" then next.bind (rustParseU (2 ^ 32)) else s.ply := by
  unfold infoStep
  split_ifs <;> rfl

theorem infoStep_score (x : String) (next : Option String) (s : TapState) :
    (infoStep x next s).score =
      if x = "cp" then next.bind (rustParseI (2 ^ 31)) else s.score := by
  unfold infoStep
  split_ifs <;> first | rfl | (rename_i h1 h2; exact absurd (h1.symm.trans h2) (by decide))

theorem infoStep_mate (x : String) (next : Option String) (s : TapState) :
    (infoStep x next s).mate =
      if x = "mate" then next.bind (rustParseI (2 ^ 31)) else s.mate := by
  unfold infoStep
  split_ifs <;> first | rfl | (rename_i h1 h2; exact absurd (h1.symm.trans h2) (by decide))

theorem infoStep_nodes (x : String) (next : Option String) (s : TapState) :
    (infoStep x next s).nodes =
      if x = "nodes" then next.bind (rustParseU (2 ^ 64)) else s.nodes := by
  unfold infoStep
  split_ifs <;> first | rfl | (rename_i h1 h2; exact absurd (h1.symm.trans h2) (by decide))

theorem infoStep_nps (x : String) (next : Option String) (s : TapState) :
    (infoStep x next s).nps =
      if x = "nps" then next.bind (rustParseU (2 ^ 64)) else s.nps := by
  unfold infoStep
  split_ifs <;> first | rfl | (rename_i h1 h2; exact absurd (h1.symm.trans h2) (by decide))

theorem infoStep_time (x : String) (next : Option String) (s : TapState) :
    (infoStep x next s).time =
      if x = "time" then next.bind (rustParseU (2 ^ 64)) else s.time := by
  unfold infoStep
  split_ifs <;> first | rfl | (rename_i h1 h2; exact absurd (h1.symm.trans h2) (by decide))

theorem infoStep_frame (x : String) (next : Option String) (s : TapState) :
    (infoStep x next s).board = s.board ∧ (infoStep x next s).engine = s.engine ∧
      (infoStep x next s).fen = s.fen ∧ (infoStep x next s).pv = s.pv ∧
      (infoStep x next s).results = s.results := by
  unfold infoStep
  split_ifs <;> exact ⟨rfl, rfl, rfl, rfl, rfl⟩

theorem infoScan_ply (parts : List String) (s : TapState) :
    (infoScan parts s).ply = lastKeyVal "depth" (rustParseU (2 ^ 32)) parts s.ply := by
  induction parts generalizing s with
  | nil => rfl
  | cons x rest ih => simp only [infoScan, lastKeyVal, ih, infoStep_ply]

theorem infoScan_score (parts : List String) (s : TapState) :
    (infoScan parts s).score = lastKeyVal "cp" (rustParseI (2 ^ 31)) parts s.score := by
  induction parts generalizing s with
  | nil => rfl
  | cons x rest ih => simp only [infoScan, lastKeyVal, ih, infoStep_score]

theorem infoScan_mate (parts : List String) (s : TapState) :
    (infoScan parts s).mate = lastKeyVal "mate" (rustParseI (2 ^ 31)) parts s.mate := by
  induction parts generalizing s with
  | nil => rfl
  | cons x rest ih => simp only [infoScan, lastKeyVal, ih, infoStep_mate]

theorem infoScan_nodes (parts : List String) (s : TapState) :
    (infoScan parts s).nodes = lastKeyVal "nodes" (rustParseU (2 ^ 64)) parts s.nodes := by
  induction parts generalizing s with
  | nil => rfl
  | cons x rest ih => simp only [infoScan, lastKeyVal, ih, infoStep_nodes]

theorem infoScan_nps (parts : List String) (s : TapState) :
    (infoScan parts s).nps = lastKeyVal "nps" (rustParseU (2 ^ 64)) parts s.nps := by
  induction parts generalizing s with
  | nil => rfl
  | cons x rest ih => simp only [infoScan, lastKeyVal, ih, infoStep_nps]

theorem infoScan_time (parts : List String) (s : TapState) :
    (infoScan parts s).time = lastKeyVal "time" (rustParseU (2 ^ 64)) parts s.time := by
  induction parts generalizing s with
  | nil => rfl
  | cons x rest ih => simp only [infoScan, lastKeyVal, ih, infoStep_time]

theorem infoScan_frame (parts : List String) (s : TapState) :
    (infoScan parts s).board = s.board ∧ (infoScan parts s).engine = s.engine ∧
      (infoScan parts s).fen = s.fen ∧ (infoScan parts s).pv = s.pv ∧
      (infoScan parts s).results = s.results := by
  induction parts generalizing s with
  | nil => exact ⟨rfl, rfl, rfl, rfl, rfl⟩
  | cons x rest ih =>
    have h1 := infoStep_frame x rest.head? s
    have h2 := ih (infoStep x rest.head? s)
    exact ⟨h2.1.trans h1.1, h2.2.1.trans h1.2.1, h2.2.2.1.trans h1.2.2.1,
      h2.2.2.2.1.trans h1.2.2.2.1, h2.2.2.2.2.trans h1.2.2.2.2⟩

/-- C3 claim, corrected. The `info` scan gives each keyed accumulator field
the parse result of the token following the key's last occurrence on the
line, and leaves it unchanged only when the key does not occur at all; in
particular a missing or unparsable value token resets the field to unknown
(`none`) rather than keeping its previous value. -/
theorem c3_info_scan_last_write_characterization (parts : List String) (s : TapState) :
    (infoScan parts s).ply = lastKeyVal "depth" (rustParseU (2 ^ 32)) parts s.ply ∧
    (infoScan parts s).score = lastKeyVal "cp" (rustParseI (2 ^ 31)) parts s.score ∧
    (infoScan parts s).mate = lastKeyVal "mate" (rustParseI (2 ^ 31)) parts s.mate ∧
    (infoScan parts s).nodes = lastKeyVal "nodes" (rustParseU (2 ^ 64)) parts s.nodes ∧
    (infoScan parts s).nps = lastKeyVal "nps" (rustParseU (2 ^ 64)) parts s.nps ∧
    (infoScan parts s).time = lastKeyVal "time" (rustParseU (2 ^ 64)) parts s.time :=
  ⟨infoScan_ply parts s, infoScan_score parts s, infoScan_mate parts s,
    infoScan_nodes parts s, infoScan_nps parts s, infoScan_time parts s⟩

/-- C3 counterexample to the claim as stated: after `info depth 10` the depth
field holds 10; a following `info depth xx`, whose value fails to parse,
resets the field to unknown instead of leaving it at 10. -/
theorem c3_unparsable_value_resets_field :
    (procLines initState ["info depth 10"]).ply = some 10 ∧
      (procLines initState ["info depth 10", "info depth xx"]).ply = none := by
  decide

/-! ## C5: new-game reset -/

/-- C5 claim, corrected. A new-game line (`uci` or `ucinewgame`) resets the
board to the starting position and clears the stored fingerprint and every
accumulator field, but it leaves the stored engine name (and the emitted
records) unchanged; the engine name is not reset to the empty string. -/
theorem c5_newgame_reset_effect (s : TapState) (line : String)
    (h : line = "uci" ∨ line = "ucinewgame") :
    procLine s line =
      { s with board := startingGamePos, fen := none, ply := none, score := none,
               mate := none, nodes := none, nps := none, time := none, pv := none } := by
  unfold procLine
  rw [if_pos h]

/-- C5 witness for the amended claim at a concrete state and line. -/
theorem c5_newgame_reset_effect_witness :
    procLine initState "ucinewgame" =
      { initState with board := startingGamePos, fen := none, ply := none, score := none,
                       mate := none, nodes := none, nps := none, time := none, pv := none } :=
  c5_newgame_reset_effect initState "ucinewgame" (Or.inr rfl)

/-- C5 counterexample to the claim as stated: an engine name stored before a
new-game event survives it; it is not reset to the empty string. -/
theorem c5_newgame_keeps_engine_name :
    (procLines initState ["id name X", "ucinewgame"]).engine = "X" ∧ "X" ≠ "" := by
  decide

/-! ## C6: end-to-end transcript -/

/-- C6 claim, confirmed: the six-line example transcript produces exactly one
record, with engine `TestEngine`, the trimmed starting-position fingerprint,
depth 10, centipawn score 25, no mate score, 12345 nodes, 500000 nodes per
second, 20 ms elapsed, and principal variation `e4 e5 Nf3`. -/
theorem c6_end_to_end_transcript :
    runTap ["uci", "id name TestEngine", "ucinewgame", "position startpos",
        "info depth 10 score cp 25 nodes 12345 nps 500000 time 20 pv e2e4 e7e5 g1f3",
        "bestmove e2e4"] =
      [Payload.mk "TestEngine" "rnbqkbnr/pppppppp/8/8/8/8/PPPPPPPP/RNBQKBNR w KQkq -"
        (some 10) (some 25) none (some 12345) (some 500000) (some 20)
        (some "e4 e5 Nf3")] := by
  decide

/-! ## Dispatch analysis: relating `classify` to `procLine` -/

theorem classify_best_inv {line : String} (h : classify line = .best) :
    ¬(line = "uci" ∨ line = "ucinewgame") ∧ stripStart "id name " line = none ∧
      stripStart "position " line = none ∧ containsStr line "info " = false ∧
      strStarts "bestmove" line = true := by
  unfold classify at h
  by_cases h1 : line = "uci" ∨ line = "ucinewgame"
  · rw [if_pos h1] at h
    cases h
  · rw [if_neg h1] at h
    by_cases h2 : (stripStart "id name " line).isSome
    · rw [if_pos h2] at h
      cases h
    · rw [if_neg h2] at h
      cases h3 : stripStart "position " line with
      | some rest =>
        simp only [h3] at h
        revert h
        split_ifs <;> intro h <;> cases h
      | none =>
        simp only [h3] at h
        by_cases h4 : containsStr line "info " = true
        · rw [if_pos h4] at h
          cases h
        · rw [if_neg h4] at h
          by_cases h5 : strStarts "bestmove" line = true
          · refine ⟨h1, Option.not_isSome_iff_eq_none.mp h2, rfl, ?_, h5⟩
            simpa using h4
          · rw [if_neg h5] at h
            cases h

/-- A line starting with `bestmove` begins with the character `b`. -/
theorem bestmove_head {line : String} (hb : strStarts "bestmove" line = true) :
    ∃ rest, line.data = 'b' :: rest := by
  unfold strStarts at hb
  cases hd : line.data with
  | nil => rw [hd] at hb; cases hb
  | cons c rest =>
    rw [hd] at hb
    have he : "bestmove".data = ['b', 'e', 's', 't', 'm', 'o', 'v', 'e'] := rfl
    rw [he] at hb
    simp only [List.isPrefixOf, Bool.and_eq_true, beq_iff_eq] at hb
    exact ⟨rest, by rw [← hb.1]⟩

theorem bestmove_not_reset {line : String} (hb : strStarts "bestmove" line = true) :
    ¬(line = "uci" ∨ line = "ucinewgame") := by
  rintro (rfl | rfl) <;> cases hb

theorem bestmove_not_ident {line : String} (hb : strStarts "bestmove" line = true) :
    stripStart "id name " line = none := by
  obtain ⟨rest, hd⟩ := bestmove_head hb
  unfold stripStart
  rw [if_neg]
  rw [hd]
  have he : "id name ".data = ['i', 'd', ' ', 'n', 'a', 'm', 'e', ' '] := rfl
  rw [he]
  simp [List.isPrefixOf]

theorem bestmove_not_position {line : String} (hb : strStarts "bestmove" line = true) :
    stripStart "position " line = none := by
  obtain ⟨rest, hd⟩ := bestmove_head hb
  unfold stripStart
  rw [if_neg]
  rw [hd]
  have he : "position ".data = ['p', 'o', 's', 'i', 't', 'i', 'o', 'n', ' '] := rfl
  rw [he]
  simp [List.isPrefixOf]

/-! ## C9: bestmove with no stored fingerprint -/

/-- C9 claim, confirmed: a line starting with `bestmove`, reaching the driver
while no fingerprint is stored, appends no record; processing continues (the
model is total, so no error is raised).  The hypothesis covers every line
starting with `bestmove`, including the pathological ones containing `info `
that the driver treats as search-info lines (those never append records
either). -/
theorem c9_bestmove_without_fingerprint_emits_nothing (s : TapState) (line : String)
    (hb : strStarts "bestmove" line = true) (hf : s.fen = none) :
    (procLine s line).results = s.results := by
  unfold procLine
  rw [if_neg (bestmove_not_reset hb)]
  simp only [bestmove_not_ident hb, bestmove_not_position hb]
  by_cases h4 : containsStr line "info " = true
  · simp only [h4, if_true]
    cases hp : pvOfLine line with
    | some u => simp [(infoScan_frame (splitWs line) s).2.2.2.2]
    | none => simp [hp, (infoScan_frame (splitWs line) s).2.2.2.2]
  · simp [h4, hb, hf]

/-- C9 witness: a concrete `bestmove` line in the initial state (which stores
no fingerprint) leaves the record list empty. -/
theorem c9_bestmove_without_fingerprint_emits_nothing_witness :
    (procLine initState "bestmove e2e4").results = initState.results :=
  c9_bestmove_without_fingerprint_emits_nothing initState "bestmove e2e4" (by decide) rfl

/-! ## C10: frame effect of a bestmove line -/

/-- C10 claim, confirmed: after a line the driver dispatches to the
best-move branch (it starts with `bestmove` and matches none of the earlier
branches — in particular it does not contain `info `), every accumulator
field is reset to unknown while the board, the engine name and the stored
fingerprint are unchanged; this holds whether or not a record was emitted. -/
theorem c10_bestmove_resets_accumulator_frame (s : TapState) (line : String)
    (h : classify line = .best) :
    (procLine s line).ply = none ∧ (procLine s line).score = none ∧
      (procLine s line).mate = none ∧ (procLine s line).nodes = none ∧
      (procLine s line).nps = none ∧ (procLine s line).time = none ∧
      (procLine s line).pv = none ∧ (procLine s line).board = s.board ∧
      (procLine s line).engine = s.engine ∧ (procLine s line).fen = s.fen := by
  obtain ⟨h1, h2, h3, h4, h5⟩ := classify_best_inv h
  unfold procLine
  rw [if_neg h1]
  simp only [h2, h3, h4, h5]
  cases hf : s.fen <;> simp [hf]

/-- C10 witness: at a concrete state with no fingerprint and a concrete
`bestmove` line the frame effect holds. -/
theorem c10_bestmove_resets_accumulator_frame_witness :
    (procLine initState "bestmove e2e4").ply = none ∧
      (procLine initState "bestmove e2e4").score = none ∧
      (procLine initState "bestmove e2e4").mate = none ∧
      (procLine initState "bestmove e2e4").nodes = none ∧
      (procLine initState "bestmove e2e4").nps = none ∧
      (procLine initState "bestmove e2e4").time = none ∧
      (procLine initState "bestmove e2e4").pv = none ∧
      (procLine initState "bestmove e2e4").board = initState.board ∧
      (procLine initState "bestmove e2e4").engine = initState.engine ∧
      (procLine initState "bestmove e2e4").fen = initState.fen :=
  c10_bestmove_resets_accumulator_frame initState "bestmove e2e4" (by decide)

/-! ## C1: record count -/

/-- One driver step, abstracted to the pair (is a fingerprint stored, number
of emitted records): it evolves exactly by `countStep`. -/
theorem procLine_abs (s : TapState) (line : String) :
    ((procLine s line).fen.isSome, (procLine s line).results.length) =
      countStep (s.fen.isSome, s.results.length) line := by
  unfold procLine countStep classify
  by_cases h1 : line = "uci" ∨ line = "ucinewgame"
  · simp [h1]
  · simp only [if_neg h1]
    cases h2 : stripStart "id name " line with
    | some rest => simp
    | none =>
      simp only [Option.isSome_none, Bool.false_eq_true, if_false]
      cases h3 : stripStart "position " line with
      | some rest =>
        by_cases h4 : strStarts "startpos" rest = true
        · simp [h4]
        · cases h5 : stripStart "fen " rest with
          | some fp => simp [h4, h5]
          | none => simp [h4, h5]
      | none =>
        have hframe := infoScan_frame (splitWs line) s
        by_cases h6 : containsStr line "info " = true
        · cases h7 : pvOfLine line with
          | some u => simp [h6, h7, hframe.2.2.1, hframe.2.2.2.2]
          | none => simp [h6, h7, hframe.2.2.1, hframe.2.2.2.2]
        · by_cases h8 : strStarts "bestmove" line = true
          · cases h9 : s.fen with
            | some fv => simp [h6, h8, h9]
            | none => simp [h6, h8, h9]
          · simp [h6, h8]

theorem procLines_abs (lines : List String) : ∀ s : TapState,
    ((procLines s lines).fen.isSome, (procLines s lines).results.length) =
      lines.foldl countStep (s.fen.isSome, s.results.length) := by
  induction lines with
  | nil => intro s; rfl
  | cons l rest ih =>
    intro s
    have h1 : procLines s (l :: rest) = procLines (procLine s l) rest := rfl
    rw [h1, ih (procLine s l), procLine_abs s l, List.foldl_cons]

/-- C1 claim, corrected: the number of emitted records equals the number of
`bestmove` lines preceded, since the most recent reset (or the transcript
start), by at least one set-position line of a recognized form
(`position startpos…` or `position fen …`) — whether or not its position
description parsed successfully.  A `position fen` line whose description
fails to parse still stores the fingerprint of the unchanged board and so
still enables record emission at the next `bestmove`. -/
theorem c1_record_count_eq_recognized_setposition_count (lines : List String) :
    (runTap lines).length = specRecCount lines := by
  have h := procLines_abs lines initState
  have h2 : (initState.fen.isSome, initState.results.length) = (false, 0) := rfl
  rw [h2] at h
  exact congrArg Prod.snd h

/-- C1 counterexample to the claim as stated: a transcript containing no
successfully parsed set-position command (its only `position fen` line fails
to parse) nevertheless emits one record at the next `bestmove`. -/
theorem c1_failed_fen_parse_still_emits_record :
    parseFenPos "garbage" = none ∧
      (runTap ["position fen garbage", "bestmove e2e4"]).length = 1 := by
  decide

/-! ## C2: move-list application -/

theorem applyTok_append_of_fail (pre : List String) :
    ∀ (p : GamePos) (t : String) (post : List String),
      parse_uci_move t (applyTok p pre) = none →
      applyTok p (pre ++ t :: post) = applyTok (applyTok p pre) post := by
  induction pre with
  | nil =>
    intro p t post hfail
    have hf : parse_uci_move t p = none := hfail
    simp only [List.nil_append, applyTok, hf]
  | cons x xs ih =>
    intro p t post hfail
    simp only [List.cons_append, applyTok]
    cases hx : parse_uci_move x p with
    | some m =>
      have hfail2 : parse_uci_move t (applyTok (playMove p m) xs) = none := by
        simpa only [applyTok, hx] using hfail
      simpa only [applyTok, hx] using ih (playMove p m) t post hfail2
    | none =>
      have hfail2 : parse_uci_move t (applyTok p xs) = none := by
        simpa only [applyTok, hx] using hfail
      simpa only [applyTok, hx] using ih p t post hfail2

/-- C2 claim, corrected: a move token that fails to resolve does not halt the
application of the rest of the command's move list — it is skipped, and the
remaining tokens are applied to the board reached so far.  The resulting
board is the fold of the whole list (resolvable tokens applied, unresolvable
tokens skipped), not the board of the prefix before the first failure. -/
theorem c2_apply_moves_skips_failed_token (p : GamePos) (movesStr : String)
    (pre : List String) (t : String) (post : List String)
    (hsplit : splitWs movesStr = pre ++ t :: post)
    (hfail : parse_uci_move t (applyTok p pre) = none) :
    apply_moves p movesStr = applyTok (applyTok p pre) post := by
  unfold apply_moves
  rw [hsplit]
  exact applyTok_append_of_fail pre p t post hfail

/-- C2 witness: the concrete move list `zz e2e4`, whose first token is
unresolvable, continues with the tokens after the failure point. -/
theorem c2_apply_moves_skips_failed_token_witness :
    apply_moves startingGamePos "zz e2e4" =
      applyTok (applyTok startingGamePos []) ["e2e4"] :=
  c2_apply_moves_skips_failed_token startingGamePos "zz e2e4" [] "zz" ["e2e4"]
    (by decide) (by decide)

/-- C2 counterexample to the claim as stated: applying `zz e2e4` to the
starting position plays `e2e4` (the board changes), although the claim says
every token after the unresolvable `zz` is ignored, which would leave the
board at the starting position. -/
theorem c2_unresolvable_move_does_not_halt :
    apply_moves startingGamePos "zz e2e4" = apply_moves startingGamePos "e2e4" ∧
      apply_moves startingGamePos "e2e4" ≠ startingGamePos := by
  decide

/-! ## C4: a reachable panic in `parse_uci_move` -/

/-- C4 claim, refuted by the code (code bug): the token `eé4` is four bytes
long (`[101, 195, 169, 52]`), so it passes the `uci.len() < 4` guard, and the
slice `&uci[0..2]` then falls inside the two-byte character `é`; in the
byte-faithful model the function aborts (outer `none` = panic) instead of
returning normally.  Such a token reaches `parse_uci_move` from any
`position … moves …` or PV token list, e.g. the line `info depth 1 pv eé4`,
so a line can abort the process, contradicting the claim. -/
theorem c4_parse_uci_move_panics_on_multibyte_token :
    strBytes "eé4" = [101, 195, 169, 52] ∧ 4 ≤ (strBytes "eé4").length ∧
      parseUciMoveChecked (strBytes "eé4") startingGamePos = none := by
  decide

/-! ## C8: PV conversion -/

theorem sanList_eq_spec (toks : List String) : ∀ p : GamePos,
    sanList p toks = (List.range (resolveCount p toks)).filterMap (sanAt p toks) := by
  induction toks with
  | nil => intro p; rfl
  | cons tok rest ih =>
    intro p
    cases h : parse_uci_move tok p with
    | none => simp [sanList, resolveCount, h]
    | some m =>
      have hstep : (fun i => sanAt p (tok :: rest) (Nat.succ i)) = sanAt (playMove p m) rest := by
        funext i
        simp [sanAt, walkBoard, h]
      have h0 : sanAt p (tok :: rest) 0 = some (sanOf p m) := by
        simp [sanAt, walkBoard, h]
      simp only [sanList, resolveCount, h]
      rw [List.range_succ_eq_map]
      simp only [List.filterMap_cons, h0, List.filterMap_map]
      rw [ih (playMove p m)]
      have hcomp : sanAt p (tok :: rest) ∘ Nat.succ = sanAt (playMove p m) rest := hstep
      rw [hcomp]

/-- C8 claim, confirmed: PV conversion returns the space-joined standard
notation of exactly the longest resolvable prefix of the token list, each
move rendered against the working board reached by the moves before it
(i.e. before the move itself is applied); indices at or past the first
unresolvable token contribute nothing, and an unresolvable first token
yields the empty string rather than an error. -/
theorem c8_convert_pv_longest_resolvable_walk (p : GamePos) (pv : String) :
    convert_pv_to_san pv p =
      joinSp ((List.range (resolveCount p (splitWs pv))).filterMap (sanAt p (splitWs pv))) ∧
      (∀ tok rest, splitWs pv = tok :: rest → parse_uci_move tok p = none →
        convert_pv_to_san pv p = "") := by
  constructor
  · unfold convert_pv_to_san
    rw [sanList_eq_spec]
  · intro tok rest hs hfail
    unfold convert_pv_to_san
    rw [hs]
    simp [sanList, hfail, joinSp]

/-- C8 witness: a PV whose first token is unresolvable converts to the empty
string. -/
theorem c8_convert_pv_longest_resolvable_walk_witness :
    convert_pv_to_san "zz e2e4" startingGamePos = "" :=
  (c8_convert_pv_longest_resolvable_walk startingGamePos "zz e2e4").2 "zz" ["e2e4"]
    (by decide) (by decide)

/-! ## C7: move resolution

The key fact is that on every board the legal-move list never contains two
moves with the same (origin, destination, promotion) triple, so "more than
one matching legal move" never occurs and the first-match loop agrees with
the claim's unique-match reading.  The geometric parts are settled by
`decide` over the 64 squares; the rest is assembled structurally. -/

theorem optNe_elim {a b : Option Nat} {x y : Nat}
    (h : optNe a b = true) (ha : a = some x) (hb : b = some y) : x ≠ y := by
  subst ha
  subst hb
  simpa [optNe] using h

theorem pawn_geom : ∀ sq ∈ List.range 64, ∀ d ∈ [(1 : Int), (-1 : Int)],
    optNe (shiftSq sq (0, d)) (shiftSq sq (0, 2 * d)) = true ∧
    optNe (shiftSq sq (0, d)) (shiftSq sq (-1, d)) = true ∧
    optNe (shiftSq sq (0, d)) (shiftSq sq (1, d)) = true ∧
    optNe (shiftSq sq (0, 2 * d)) (shiftSq sq (-1, d)) = true ∧
    optNe (shiftSq sq (0, 2 * d)) (shiftSq sq (1, d)) = true ∧
    optNe (shiftSq sq (-1, d)) (shiftSq sq (1, d)) = true := by
  decide

theorem pawnDirY_cases (c : Color) : pawnDirY c = 1 ∨ pawnDirY c = -1 := by
  cases c
  · exact Or.inl rfl
  · exact Or.inr rfl

theorem knight_targets_nodup : ∀ sq ∈ List.range 64, (stepTargets sq knightOffs).Nodup := by
  decide

theorem king_targets_nodup : ∀ sq ∈ List.range 64, (stepTargets sq kingOffs).Nodup := by
  decide

theorem rook_ray_nodup : ∀ sq ∈ List.range 64, (rookDirs.flatMap (fullRay sq)).Nodup := by
  decide

theorem bishop_ray_nodup : ∀ sq ∈ List.range 64, (bishopDirs.flatMap (fullRay sq)).Nodup := by
  decide

theorem queen_ray_nodup : ∀ sq ∈ List.range 64, (queenDirs.flatMap (fullRay sq)).Nodup := by
  decide

theorem king4_targets_not_corner :
    (stepTargets 4 kingOffs).all (fun t => decide (t ≠ 7 ∧ t ≠ 0)) = true := by
  decide

theorem king60_targets_not_corner :
    (stepTargets 60 kingOffs).all (fun t => decide (t ≠ 63 ∧ t ≠ 56)) = true := by
  decide

theorem rayKeep_sublist (b : ChessBoard) (c : Color) :
    ∀ l : List Nat, List.Sublist (rayKeep b c l) l := by
  intro l
  induction l with
  | nil => exact List.Sublist.refl _
  | cons t rest ih =>
    unfold rayKeep
    cases boardGet b t with
    | none => exact List.Sublist.cons₂ t ih
    | some pc =>
      dsimp only
      split_ifs
      · exact List.nil_sublist _
      · exact List.Sublist.cons₂ t (List.nil_sublist rest)

theorem flatMap_sublist {α β : Type} {f g : α → List β} :
    ∀ l : List α, (∀ a ∈ l, List.Sublist (f a) (g a)) →
      List.Sublist (l.flatMap f) (l.flatMap g) := by
  intro l
  induction l with
  | nil => intro _; exact List.Sublist.refl _
  | cons x xs ih =>
    intro h
    simp only [List.flatMap_cons]
    exact (h x (by simp)).append (ih fun a ha => h a (by simp [ha]))

theorem pairwise_flatMap_of {α β : Type} {R : β → β → Prop} {f : α → List β} :
    ∀ l : List α, (∀ a ∈ l, (f a).Pairwise R) →
      l.Pairwise (fun a b => ∀ x ∈ f a, ∀ y ∈ f b, R x y) → (l.flatMap f).Pairwise R := by
  intro l
  induction l with
  | nil => intro _ _; simp
  | cons a as ih =>
    intro h1 h2
    simp only [List.flatMap_cons]
    rw [List.pairwise_append]
    cases h2 with
    | cons hrel htail =>
      refine ⟨h1 a (by simp), ih (fun x hx => h1 x (by simp [hx])) htail, ?_⟩
      intro x hx y hy
      obtain ⟨b2, hb2, hyb⟩ := List.mem_flatMap.mp hy
      exact hrel b2 hb2 x hx y hyb

/-! ### Per-origin distinctness of (destination, promotion) keys -/

theorem promoExpand_mem {sq t : Nat} {c : Color} {cap : Option Role} {m : ChessMove}
    (h : m ∈ promoExpand sq t c cap) : m.dstSq = t ∧ m.srcSq = some sq := by
  unfold promoExpand at h
  split_ifs at h <;>
    simp only [List.mem_cons, List.mem_singleton, List.not_mem_nil, or_false] at h
  · rcases h with rfl | rfl | rfl | rfl <;> exact ⟨rfl, rfl⟩
  · subst h
    exact ⟨rfl, rfl⟩

theorem promoExpand_key2 (sq t : Nat) (c : Color) (cap : Option Role) :
    (promoExpand sq t c cap).map key2 =
      if rankOf t = promoRankOf c then
        [(t, some Role.queen), (t, some Role.rook), (t, some Role.bishop),
          (t, some Role.knight)]
      else [(t, (none : Option Role))] := by
  unfold promoExpand
  split_ifs <;> rfl

theorem promoExpand_key2_nodup (sq t : Nat) (c : Color) (cap : Option Role) :
    ((promoExpand sq t c cap).map key2).Nodup := by
  rw [promoExpand_key2]
  split_ifs <;> simp

theorem promoExpand_key2_mem {sq t : Nat} {c : Color} {cap : Option Role}
    {y : Nat × Option Role} (h : y ∈ (promoExpand sq t c cap).map key2) : y.1 = t := by
  obtain ⟨m, hm, rfl⟩ := List.mem_map.mp h
  exact (promoExpand_mem hm).1

theorem pawnPushes_mem {b : ChessBoard} {c : Color} {sq : Nat} {m : ChessMove}
    (h : m ∈ pawnPushes b c sq) :
    m.srcSq = some sq ∧
      (shiftSq sq (0, pawnDirY c) = some m.dstSq ∨
        shiftSq sq (0, 2 * pawnDirY c) = some m.dstSq) := by
  unfold pawnPushes at h
  cases h1 : shiftSq sq (0, pawnDirY c) with
  | none =>
    simp only [h1] at h
    cases h
  | some u1 =>
    simp only [h1] at h
    by_cases hempty : boardGet b u1 = none
    · rw [if_pos hempty] at h
      rcases List.mem_append.mp h with h | h
      · obtain ⟨hdst, hsrc⟩ := promoExpand_mem h
        exact ⟨hsrc, Or.inl (by rw [hdst])⟩
      · by_cases hstart : rankOf sq = startRankOf c
        · rw [if_pos hstart] at h
          cases h2 : shiftSq sq (0, 2 * pawnDirY c) with
          | none =>
            simp only [h2] at h
            cases h
          | some u2 =>
            simp only [h2] at h
            by_cases he2 : boardGet b u2 = none
            · rw [if_pos he2] at h
              simp only [List.mem_singleton] at h
              subst h
              exact ⟨rfl, Or.inr rfl⟩
            · rw [if_neg he2] at h
              cases h
        · rw [if_neg hstart] at h
          cases h
    · rw [if_neg hempty] at h
      cases h

theorem pawnPushes_key2_mem {b : ChessBoard} {c : Color} {sq : Nat} {y : Nat × Option Role}
    (hy : y ∈ (pawnPushes b c sq).map key2) :
    shiftSq sq (0, pawnDirY c) = some y.1 ∨ shiftSq sq (0, 2 * pawnDirY c) = some y.1 := by
  obtain ⟨m, hm, rfl⟩ := List.mem_map.mp hy
  exact (pawnPushes_mem hm).2

theorem pawnPushes_key2_nodup (b : ChessBoard) (c : Color) (sq : Nat) (hsq : sq < 64) :
    ((pawnPushes b c sq).map key2).Nodup := by
  have hgeom := pawn_geom sq (List.mem_range.mpr hsq) (pawnDirY c)
    (by rcases pawnDirY_cases c with h | h <;> simp [h])
  unfold pawnPushes
  cases h1 : shiftSq sq (0, pawnDirY c) with
  | none => simp
  | some u1 =>
    dsimp only
    by_cases hempty : boardGet b u1 = none
    · rw [if_pos hempty, List.map_append]
      refine List.nodup_append.mpr ⟨promoExpand_key2_nodup sq u1 c none, ?_, ?_⟩
      · by_cases hstart : rankOf sq = startRankOf c
        · rw [if_pos hstart]
          cases h2 : shiftSq sq (0, 2 * pawnDirY c) with
          | none => simp
          | some u2 =>
            dsimp only
            by_cases he2 : boardGet b u2 = none
            · rw [if_pos he2]
              simp
            · rw [if_neg he2]
              simp
        · rw [if_neg hstart]
          simp
      · intro y hy hy2
        have hyt := promoExpand_key2_mem hy
        by_cases hstart : rankOf sq = startRankOf c
        · rw [if_pos hstart] at hy2
          cases h2 : shiftSq sq (0, 2 * pawnDirY c) with
          | none =>
            simp only [h2] at hy2
            simp at hy2
          | some u2 =>
            simp only [h2] at hy2
            by_cases he2 : boardGet b u2 = none
            · rw [if_pos he2] at hy2
              simp only [List.map_cons, List.map_nil, List.mem_singleton] at hy2
              have hne : u1 ≠ u2 := optNe_elim hgeom.1 h1 h2
              rw [hy2] at hyt
              exact hne hyt.symm
            · rw [if_neg he2] at hy2
              simp at hy2
        · rw [if_neg hstart] at hy2
          simp at hy2
    · rw [if_neg hempty]
      simp

theorem pawnCapDir_mem {b : ChessBoard} {c : Color} {sq : Nat} {dx : Int} {m : ChessMove}
    (h : m ∈ pawnCapDir b c sq dx) :
    m.srcSq = some sq ∧ shiftSq sq (dx, pawnDirY c) = some m.dstSq ∧
      ∃ pc, boardGet b m.dstSq = some pc := by
  unfold pawnCapDir at h
  cases h1 : shiftSq sq (dx, pawnDirY c) with
  | none =>
    simp only [h1] at h
    cases h
  | some t =>
    simp only [h1] at h
    cases h2 : boardGet b t with
    | none =>
      simp only [h2] at h
      cases h
    | some pc =>
      simp only [h2] at h
      split_ifs at h
      · cases h
      · obtain ⟨hdst, hsrc⟩ := promoExpand_mem h
        exact ⟨hsrc, by rw [hdst], pc, by rw [hdst]; exact h2⟩

theorem pawnCapDir_key2_mem {b : ChessBoard} {c : Color} {sq : Nat} {dx : Int}
    {y : Nat × Option Role} (hy : y ∈ (pawnCapDir b c sq dx).map key2) :
    shiftSq sq (dx, pawnDirY c) = some y.1 ∧ ∃ pc, boardGet b y.1 = some pc := by
  obtain ⟨m, hm, rfl⟩ := List.mem_map.mp hy
  exact (pawnCapDir_mem hm).2

theorem pawnCapDir_key2_nodup (b : ChessBoard) (c : Color) (sq : Nat) (dx : Int) :
    ((pawnCapDir b c sq dx).map key2).Nodup := by
  unfold pawnCapDir
  cases shiftSq sq (dx, pawnDirY c) with
  | none => simp
  | some t =>
    dsimp only
    cases boardGet b t with
    | none => simp
    | some pc =>
      dsimp only
      split_ifs
      · simp
      · exact promoExpand_key2_nodup sq t c (some pc.role)

theorem pawnEpDir_mem {p : GamePos} {sq : Nat} {dx : Int} {m : ChessMove}
    (h : m ∈ pawnEpDir p sq dx) :
    m.srcSq = some sq ∧ shiftSq sq (dx, pawnDirY p.turn) = some m.dstSq ∧
      boardGet p.board m.dstSq = none := by
  unfold pawnEpDir at h
  cases h1 : shiftSq sq (dx, pawnDirY p.turn) with
  | none =>
    simp only [h1] at h
    cases h
  | some t =>
    simp only [h1] at h
    split_ifs at h with hc
    · simp only [List.mem_singleton] at h
      subst h
      exact ⟨rfl, rfl, hc.2⟩
    · cases h

theorem pawnEpDir_key2_mem {p : GamePos} {sq : Nat} {dx : Int} {y : Nat × Option Role}
    (hy : y ∈ (pawnEpDir p sq dx).map key2) :
    shiftSq sq (dx, pawnDirY p.turn) = some y.1 ∧ boardGet p.board y.1 = none := by
  obtain ⟨m, hm, rfl⟩ := List.mem_map.mp hy
  exact (pawnEpDir_mem hm).2

theorem pawnEpDir_key2_nodup (p : GamePos) (sq : Nat) (dx : Int) :
    ((pawnEpDir p sq dx).map key2).Nodup := by
  unfold pawnEpDir
  cases shiftSq sq (dx, pawnDirY p.turn) with
  | none => simp
  | some t =>
    dsimp only
    split_ifs <;> simp

theorem pawnMoves_key2_nodup (p : GamePos) (sq : Nat) (hsq : sq < 64) :
    ((pawnMoves p sq).map key2).Nodup := by
  obtain ⟨g12, g1l, g1r, g2l, g2r, glr⟩ :=
    pawn_geom sq (List.mem_range.mpr hsq) (pawnDirY p.turn)
      (by rcases pawnDirY_cases p.turn with h | h <;> simp [h])
  unfold pawnMoves
  simp only [List.map_append, List.append_assoc]
  refine List.nodup_append.mpr ⟨pawnPushes_key2_nodup p.board p.turn sq hsq, ?_, ?_⟩
  · refine List.nodup_append.mpr ⟨pawnCapDir_key2_nodup p.board p.turn sq (-1), ?_, ?_⟩
    · refine List.nodup_append.mpr ⟨pawnCapDir_key2_nodup p.board p.turn sq 1, ?_, ?_⟩
      · refine List.nodup_append.mpr
          ⟨pawnEpDir_key2_nodup p sq (-1), pawnEpDir_key2_nodup p sq 1, ?_⟩
        intro y hyD hyE
        exact optNe_elim glr (pawnEpDir_key2_mem hyD).1 (pawnEpDir_key2_mem hyE).1 rfl
      · intro y hyC hyDE
        have hC := pawnCapDir_key2_mem hyC
        rcases List.mem_append.mp hyDE with hyD | hyE
        · exact optNe_elim glr (pawnEpDir_key2_mem hyD).1 hC.1 rfl
        · obtain ⟨pc, hpc⟩ := hC.2
          rw [(pawnEpDir_key2_mem hyE).2] at hpc
          cases hpc
    · intro y hyB hyCDE
      have hB := pawnCapDir_key2_mem hyB
      rcases List.mem_append.mp hyCDE with hyC | hyDE
      · exact optNe_elim glr hB.1 (pawnCapDir_key2_mem hyC).1 rfl
      · rcases List.mem_append.mp hyDE with hyD | hyE
        · obtain ⟨pc, hpc⟩ := hB.2
          rw [(pawnEpDir_key2_mem hyD).2] at hpc
          cases hpc
        · exact optNe_elim glr hB.1 (pawnEpDir_key2_mem hyE).1 rfl
  · intro y hyA hyBCDE
    have hA := pawnPushes_key2_mem hyA
    rcases List.mem_append.mp hyBCDE with hyB | hyCDE
    · have hB := pawnCapDir_key2_mem hyB
      rcases hA with h | h
      · exact optNe_elim g1l h hB.1 rfl
      · exact optNe_elim g2l h hB.1 rfl
    · rcases List.mem_append.mp hyCDE with hyC | hyDE
      · have hC := pawnCapDir_key2_mem hyC
        rcases hA with h | h
        · exact optNe_elim g1r h hC.1 rfl
        · exact optNe_elim g2r h hC.1 rfl
      · rcases List.mem_append.mp hyDE with hyD | hyE
        · have hD := pawnEpDir_key2_mem hyD
          rcases hA with h | h
          · exact optNe_elim g1l h hD.1 rfl
          · exact optNe_elim g2l h hD.1 rfl
        · have hE := pawnEpDir_key2_mem hyE
          rcases hA with h | h
          · exact optNe_elim g1r h hE.1 rfl
          · exact optNe_elim g2r h hE.1 rfl

theorem key2_mkStep (b : ChessBoard) (role : Role) (sq t : Nat) :
    key2 (mkStep b role sq t) = (t, (none : Option Role)) := rfl

theorem pair_fst_inj : Function.Injective (fun t : Nat => (t, (none : Option Role))) := by
  intro a b hab
  exact congrArg Prod.fst hab

theorem stepMoves_key2_nodup {b : ChessBoard} {c : Color} {role : Role} {sq : Nat}
    {offs : List (Int × Int)} (h : (stepTargets sq offs).Nodup) :
    ((stepMoves b c role sq offs).map key2).Nodup := by
  unfold stepMoves
  rw [List.map_map]
  have he : (key2 ∘ mkStep b role sq) = fun t => (t, (none : Option Role)) := rfl
  rw [he]
  exact (h.filter (stepOk b c)).map pair_fst_inj

theorem slideMoves_key2_nodup {b : ChessBoard} {c : Color} {role : Role} {sq : Nat}
    {dirs : List (Int × Int)} (h : (dirs.flatMap (fullRay sq)).Nodup) :
    ((slideMoves b c role sq dirs).map key2).Nodup := by
  unfold slideMoves
  rw [List.map_map]
  have he : (key2 ∘ mkStep b role sq) = fun t => (t, (none : Option Role)) := rfl
  rw [he]
  have hsub : List.Sublist (dirs.flatMap fun d => rayKeep b c (fullRay sq d))
      (dirs.flatMap (fullRay sq)) :=
    flatMap_sublist _ (fun d _ => rayKeep_sublist b c (fullRay sq d))
  exact (h.sublist hsub).map pair_fst_inj

theorem castleMoves_key2_nodup (p : GamePos) (sq : Nat) :
    ((castleMoves p sq).map key2).Nodup := by
  unfold castleMoves
  cases hp : p.turn <;> dsimp only <;> split_ifs <;> decide

theorem castleMoves_mem {p : GamePos} {sq : Nat} {m : ChessMove}
    (h : m ∈ castleMoves p sq) :
    (sq = 4 ∧ (m = ChessMove.castle 4 7 ∨ m = ChessMove.castle 4 0)) ∨
      (sq = 60 ∧ (m = ChessMove.castle 60 63 ∨ m = ChessMove.castle 60 56)) := by
  unfold castleMoves at h
  cases hp : p.turn with
  | white =>
    simp only [hp] at h
    split_ifs at h
    all_goals simp at h
    all_goals first
      | exact Or.inl ⟨by assumption, Or.inl h⟩
      | exact Or.inl ⟨by assumption, Or.inr h⟩
      | exact Or.inl ⟨by assumption, h⟩
  | black =>
    simp only [hp] at h
    split_ifs at h
    all_goals simp at h
    all_goals first
      | exact Or.inr ⟨by assumption, Or.inl h⟩
      | exact Or.inr ⟨by assumption, Or.inr h⟩
      | exact Or.inr ⟨by assumption, h⟩

theorem kingMoves_key2_nodup (p : GamePos) (sq : Nat) (hsq : sq < 64) :
    ((stepMoves p.board p.turn .king sq kingOffs ++ castleMoves p sq).map key2).Nodup := by
  rw [List.map_append]
  refine List.nodup_append.mpr
    ⟨stepMoves_key2_nodup (king_targets_nodup sq (List.mem_range.mpr hsq)),
      castleMoves_key2_nodup p sq, ?_⟩
  intro y hy hy2
  obtain ⟨m, hm, rfl⟩ := List.mem_map.mp hy
  unfold stepMoves at hm
  obtain ⟨t, ht, rfl⟩ := List.mem_map.mp hm
  have htmem : t ∈ stepTargets sq kingOffs := List.mem_of_mem_filter ht
  obtain ⟨m2, hm2, hkey⟩ := List.mem_map.mp hy2
  rcases castleMoves_mem hm2 with ⟨rfl, hc⟩ | ⟨rfl, hc⟩
  · have hall := king4_targets_not_corner
    rw [List.all_eq_true] at hall
    have hcons := of_decide_eq_true (hall t htmem)
    rcases hc with rfl | rfl
    · exact hcons.1 (congrArg Prod.fst hkey).symm
    · exact hcons.2 (congrArg Prod.fst hkey).symm
  · have hall := king60_targets_not_corner
    rw [List.all_eq_true] at hall
    have hcons := of_decide_eq_true (hall t htmem)
    rcases hc with rfl | rfl
    · exact hcons.1 (congrArg Prod.fst hkey).symm
    · exact hcons.2 (congrArg Prod.fst hkey).symm

theorem movesFrom_key2_nodup (p : GamePos) (sq : Nat) (pc : Piece) (hsq : sq < 64) :
    ((movesFrom p sq pc).map key2).Nodup := by
  obtain ⟨c0, r0⟩ := pc
  cases r0 with
  | pawn => exact pawnMoves_key2_nodup p sq hsq
  | knight => exact stepMoves_key2_nodup (knight_targets_nodup sq (List.mem_range.mpr hsq))
  | bishop => exact slideMoves_key2_nodup (bishop_ray_nodup sq (List.mem_range.mpr hsq))
  | rook => exact slideMoves_key2_nodup (rook_ray_nodup sq (List.mem_range.mpr hsq))
  | queen => exact slideMoves_key2_nodup (queen_ray_nodup sq (List.mem_range.mpr hsq))
  | king => exact kingMoves_key2_nodup p sq hsq

theorem stepMoves_src {b : ChessBoard} {c : Color} {role : Role} {sq : Nat}
    {offs : List (Int × Int)} {m : ChessMove} (hm : m ∈ stepMoves b c role sq offs) :
    m.srcSq = some sq := by
  unfold stepMoves at hm
  obtain ⟨t, _, rfl⟩ := List.mem_map.mp hm
  rfl

theorem slideMoves_src {b : ChessBoard} {c : Color} {role : Role} {sq : Nat}
    {dirs : List (Int × Int)} {m : ChessMove} (hm : m ∈ slideMoves b c role sq dirs) :
    m.srcSq = some sq := by
  unfold slideMoves at hm
  obtain ⟨t, _, rfl⟩ := List.mem_map.mp hm
  rfl

theorem movesFrom_src (p : GamePos) (sq : Nat) (pc : Piece) :
    ∀ m ∈ movesFrom p sq pc, m.srcSq = some sq := by
  intro m hm
  obtain ⟨c0, r0⟩ := pc
  cases r0 with
  | pawn =>
    unfold movesFrom pawnMoves at hm
    rcases List.mem_append.mp hm with hm | hyE
    on_goal 2 => exact (pawnEpDir_mem hyE).1
    rcases List.mem_append.mp hm with hm | hyD
    on_goal 2 => exact (pawnEpDir_mem hyD).1
    rcases List.mem_append.mp hm with hm | hyC
    on_goal 2 => exact (pawnCapDir_mem hyC).1
    rcases List.mem_append.mp hm with hyA | hyB
    · exact (pawnPushes_mem hyA).1
    · exact (pawnCapDir_mem hyB).1
  | knight => exact stepMoves_src hm
  | bishop => exact slideMoves_src hm
  | rook => exact slideMoves_src hm
  | queen => exact slideMoves_src hm
  | king =>
    unfold movesFrom at hm
    rcases List.mem_append.mp hm with hm | hm
    · exact stepMoves_src hm
    · rcases castleMoves_mem hm with ⟨rfl, hc⟩ | ⟨rfl, hc⟩ <;> rcases hc with rfl | rfl <;> rfl

theorem pseudoMoves_key_pairwise (p : GamePos) :
    (pseudoMoves p).Pairwise (fun a b => moveKey a ≠ moveKey b) := by
  unfold pseudoMoves
  apply pairwise_flatMap_of
  · intro sq hsq
    cases hb : boardGet p.board sq with
    | none => simp
    | some pc =>
      dsimp only
      by_cases hc : pc.color = p.turn
      · rw [if_pos hc]
        have h2 := movesFrom_key2_nodup p sq pc (List.mem_range.mp hsq)
        have h3 : (movesFrom p sq pc).Pairwise (fun a b => key2 a ≠ key2 b) :=
          List.pairwise_map.mp h2
        exact h3.imp (fun hne hkeq => hne (congrArg Prod.snd hkeq))
      · rw [if_neg hc]
        simp
  · have h0 : (List.range 64).Pairwise (· ≠ ·) := List.nodup_range 64
    refine h0.imp ?_
    intro sq sq' hne x hx y hy hkeq
    have hxs : x.srcSq = some sq := by
      rcases hbx : boardGet p.board sq with _ | pc
      · rw [hbx] at hx
        cases hx
      · rw [hbx] at hx
        dsimp only at hx
        split_ifs at hx
        · exact movesFrom_src p sq pc x hx
        · cases hx
    have hys : y.srcSq = some sq' := by
      rcases hby : boardGet p.board sq' with _ | pc
      · rw [hby] at hy
        cases hy
      · rw [hby] at hy
        dsimp only at hy
        split_ifs at hy
        · exact movesFrom_src p sq' pc y hy
        · cases hy
    have : x.srcSq = y.srcSq := congrArg Prod.fst hkeq
    rw [hxs, hys] at this
    exact hne (Option.some.inj this)

theorem legalMoves_key_pairwise (p : GamePos) :
    (legalMoves p).Pairwise (fun a b => moveKey a ≠ moveKey b) :=
  (pseudoMoves_key_pairwise p).sublist (List.filter_sublist _)

theorem uciMatches_moveKey {fl : Nat × Nat × Option Role} {m : ChessMove}
    (h : uciMatches fl m = true) : moveKey m = (some fl.1, fl.2.1, fl.2.2) := by
  unfold uciMatches at h
  simp only [Bool.and_eq_true, beq_iff_eq] at h
  unfold moveKey
  rw [h.1.1, h.1.2, h.2]

/-- C7 claim, confirmed.  For every board and token: (a) a returned move is a
legal move of the board whose origin and destination equal the token's squares
and whose promotion piece equals the token's 5th-character selection exactly —
`some` of the selected role when the token carries a promotion letter, and
`none` (no promotion, even when a promotion move with the same origin and
destination exists) when it does not; (b) a token whose squares do not parse
resolves to nothing; (c) when zero legal moves match, the result is no match;
and (d) when more than one legal move matches, the result is no match — on
every board the matching legal moves are in fact never more than one (their
(origin, destination, promotion) keys are pairwise distinct), so this case is
never exercised and the first-match loop agrees with the claim. -/
theorem c7_parse_uci_move_resolution_spec (p : GamePos) (uci : String) :
    (∀ m fl, uciFields uci = some fl → parse_uci_move uci p = some m →
        m ∈ legalMoves p ∧ m.srcSq = some fl.1 ∧ m.dstSq = fl.2.1 ∧
          m.promoOf = fl.2.2) ∧
      (uciFields uci = none → parse_uci_move uci p = none) ∧
      (∀ fl, uciFields uci = some fl → matchingMoves p fl = [] →
        parse_uci_move uci p = none) ∧
      (∀ fl, uciFields uci = some fl → 1 < (matchingMoves p fl).length →
        parse_uci_move uci p = none) := by
  refine ⟨?_, ?_, ?_, ?_⟩
  · intro m fl hfl hsome
    unfold parse_uci_move at hsome
    rw [hfl] at hsome
    have hmem := List.mem_of_find?_eq_some hsome
    have hmatch := List.find?_some hsome
    unfold uciMatches at hmatch
    simp only [Bool.and_eq_true, beq_iff_eq] at hmatch
    exact ⟨hmem, hmatch.1.1, hmatch.1.2, hmatch.2⟩
  · intro hnone
    unfold parse_uci_move
    rw [hnone]
  · intro fl hfl hempty
    unfold parse_uci_move
    rw [hfl]
    rw [List.find?_eq_none]
    intro x hx
    have hx2 := List.filter_eq_nil_iff.mp hempty x hx
    simpa using hx2
  · intro fl hfl hlen
    exfalso
    obtain ⟨a, b, rest, hmm⟩ : ∃ a b rest, matchingMoves p fl = a :: b :: rest := by
      cases hmm : matchingMoves p fl with
      | nil =>
        rw [hmm] at hlen
        simp at hlen
      | cons a tail =>
        cases htl : tail with
        | nil =>
          rw [hmm, htl] at hlen
          simp at hlen
        | cons b rest => exact ⟨a, b, rest, rfl⟩
    have hp : (matchingMoves p fl).Pairwise (fun a b => moveKey a ≠ moveKey b) :=
      (legalMoves_key_pairwise p).filter (uciMatches fl)
    rw [hmm] at hp
    have hab : moveKey a ≠ moveKey b := (List.pairwise_cons.mp hp).1 b (by simp)
    have ha : uciMatches fl a = true :=
      List.of_mem_filter (l := legalMoves p) (by rw [show (legalMoves p).filter
        (uciMatches fl) = matchingMoves p fl from rfl, hmm]; simp)
    have hb : uciMatches fl b = true :=
      List.of_mem_filter (l := legalMoves p) (by rw [show (legalMoves p).filter
        (uciMatches fl) = matchingMoves p fl from rfl, hmm]; simp)
    exact hab ((uciMatches_moveKey ha).trans (uciMatches_moveKey hb).symm)

/-- C7 witness: on the starting position the token `a1a1` parses to squares
(0, 0) with no promotion request, no legal move matches, and resolution
returns no match. -/
theorem c7_parse_uci_move_resolution_spec_witness :
    parse_uci_move "a1a1" startingGamePos = none :=
  (c7_parse_uci_move_resolution_spec startingGamePos "a1a1").2.2.1 (0, 0, none)
    (by decide) (by decide)

end Ucitap
